import Mathlib

/-!
# Mass-mail backend: scheduled delivery, submission handler and address validation

A shallow embedding of `main.go`.

* Go strings are modelled as Lean strings, read as sequences of runes.
* The database table `scheduled_emails` is a list of rows, in the order in which a
  query returns them.
* The results of calls that leave the process (the SMTP relay, the database driver, the
  library timestamp parser, the upload scanner) are supplied by an environment value.
  The embedding records every call to `sendEmail` and `saveScheduledEmail` in a trace.
-/

namespace MassMail

/-! ## Regular expressions -/

/-- Regular expressions over runes, with character classes as predicates. -/
inductive Regex where
  | none : Regex
  | eps : Regex
  | cls (p : Char → Bool) : Regex
  | cat (a b : Regex) : Regex
  | alt (a b : Regex) : Regex
  | star (a : Regex) : Regex

namespace Regex

/-- Whether the expression matches the empty input. -/
def nullable : Regex → Bool
  | none => false
  | eps => true
  | cls _ => false
  | cat a b => a.nullable && b.nullable
  | alt a b => a.nullable || b.nullable
  | star _ => true

/-- Brzozowski derivative: what remains to be matched after reading `c`. -/
def deriv : Regex → Char → Regex
  | none, _ => none
  | eps, _ => none
  | cls p, c => if p c then eps else none
  | cat a b, c =>
    if a.nullable then alt (cat (a.deriv c) b) (b.deriv c) else cat (a.deriv c) b
  | alt a b, c => alt (a.deriv c) (b.deriv c)
  | star a, c => cat (a.deriv c) (star a)

/-- Whole-input match, the meaning of a pattern written between `^` and `$`. -/
def fullMatch (r : Regex) : List Char → Bool
  | [] => r.nullable
  | c :: cs => fullMatch (r.deriv c) cs

/-- The quantifier `+`. -/
def plus (r : Regex) : Regex := cat r (star r)

/-- The quantifier `{2,}`. -/
def atLeast2 (r : Regex) : Regex := cat r (cat r (star r))

/-- A literal rune. -/
def lit (c : Char) : Regex := cls (fun x => x == c)

/-- Denotation of an expression as a set of words. -/
def lang : Regex → Language Char
  | none => 0
  | eps => 1
  | cls p => {w | ∃ c, p c = true ∧ w = [c]}
  | cat a b => a.lang * b.lang
  | alt a b => a.lang + b.lang
  | star a => KStar.kstar a.lang

end Regex

/-! ## Address validation (`isValidEmail`) -/

/-- A range `lo-hi` inside a bracket expression. -/
def inRange (lo hi c : Char) : Bool := decide (lo ≤ c) && decide (c ≤ hi)

/-- The class `[a-zA-Z]`. -/
def isLetter (c : Char) : Bool := inRange 'a' 'z' c || inRange 'A' 'Z' c

/-- The class `[a-zA-Z0-9._%+-]`. -/
def isLocalChar (c : Char) : Bool :=
  inRange 'a' 'z' c || inRange 'A' 'Z' c || inRange '0' '9' c ||
    c == '.' || c == '_' || c == '%' || c == '+' || c == '-'

/-- The class `[a-zA-Z0-9.-]`. -/
def isDomainChar (c : Char) : Bool :=
  inRange 'a' 'z' c || inRange 'A' 'Z' c || inRange '0' '9' c || c == '.' || c == '-'

/-- The class `[a-zA-Z0-9-]`, the runes of one domain label in the specification. -/
def isLabelChar (c : Char) : Bool :=
  inRange 'a' 'z' c || inRange 'A' 'Z' c || inRange '0' '9' c || c == '-'

/-- The constant `emailRegex` without its anchors:
`[a-zA-Z0-9._%+-]+@[a-zA-Z0-9.-]+\.[a-zA-Z]{2,}`. -/
def emailRegex : Regex :=
  Regex.cat (Regex.plus (Regex.cls isLocalChar))
    (Regex.cat (Regex.lit '@')
      (Regex.cat (Regex.plus (Regex.cls isDomainChar))
        (Regex.cat (Regex.lit '.') (Regex.atLeast2 (Regex.cls isLetter)))))

/-- The function `isValidEmail`: `regexp.MatchString` with a pattern anchored by `^` and `$`
(no flags, so `$` is the end of the text) holds exactly when the whole string matches.  The
pattern is a valid one, so the error branch is never taken. -/
def isValidEmail (email : String) : Bool := emailRegex.fullMatch email.data

/-! ### The shape of a valid address as the specification words it -/

/-- Splits a rune sequence at every occurrence of `sep`, keeping empty pieces. -/
def splitOn (sep : Char) : List Char → List (List Char)
  | [] => [[]]
  | c :: cs =>
    if c = sep then [] :: splitOn sep cs
    else
      match splitOn sep cs with
      | [] => [[c]]
      | h :: t => (c :: h) :: t

/-- The shape `local-part@domain.tld` of the specification: a local part of one or more runes
of `[a-zA-Z0-9._%+-]`, then `@`, then one or more non-empty labels of `[a-zA-Z0-9-]` separated
by `.`, then `.` and a final label of two or more letters. -/
def specValidEmail (email : String) : Bool :=
  match splitOn '@' email.data with
  | [loc, dom] =>
    let labels := splitOn '.' dom
    !loc.isEmpty && loc.all isLocalChar &&
      decide (2 ≤ labels.length) &&
      labels.dropLast.all (fun l => !l.isEmpty && l.all isLabelChar) &&
      (match labels.getLast? with
        | some tld => decide (2 ≤ tld.length) && tld.all isLetter
        | Option.none => false)
  | _ => false

/-! ## String helpers of the handler -/

/-- The predicate `unicode.IsSpace`. -/
def isSpace (c : Char) : Bool :=
  let n := c.toNat
  (decide (0x09 ≤ n) && decide (n ≤ 0x0d)) || n == 0x20 || n == 0x85 || n == 0xA0 ||
    n == 0x1680 || (decide (0x2000 ≤ n) && decide (n ≤ 0x200a)) ||
    n == 0x2028 || n == 0x2029 || n == 0x202f || n == 0x205f || n == 0x3000

/-- The function `strings.TrimSpace`: leading and trailing white space removed. -/
def TrimSpace (s : String) : String :=
  ⟨((s.data.dropWhile isSpace).reverse.dropWhile isSpace).reverse⟩

/-- Worker of `FieldsFunc`; `cur` is the current field, reversed. -/
def fieldsAux (f : Char → Bool) : List Char → List Char → List String
  | [], cur => if cur.isEmpty then [] else [⟨cur.reverse⟩]
  | c :: cs, cur =>
    if f c then
      (if cur.isEmpty then fieldsAux f cs [] else ⟨cur.reverse⟩ :: fieldsAux f cs [])
    else fieldsAux f cs (c :: cur)

/-- The function `strings.FieldsFunc`: the maximal runs of runes not satisfying `f`. -/
def FieldsFunc (s : String) (f : Char → Bool) : List String := fieldsAux f s.data []

/-- The helper `dropCR` of `bufio.ScanLines`. -/
def dropCR (l : List Char) : List Char :=
  if l.getLast? = some '\r' then l.dropLast else l

/-- Worker of `scanLines`; `cur` is the current line, reversed. -/
def scanLinesAux : List Char → List Char → List String
  | [], cur => if cur.isEmpty then [] else [⟨dropCR cur.reverse⟩]
  | c :: cs, cur =>
    if c == '\n' then ⟨dropCR cur.reverse⟩ :: scanLinesAux cs [] else scanLinesAux cs (c :: cur)

/-- The tokens of a `bufio.Scanner` with its default split function: the lines of the text,
each without its end-of-line marker; a last line need not be terminated. -/
def scanLines (content : String) : List String := scanLinesAux content.data []

/-- The function `strings.Join`, on rune sequences. -/
def joinChars (sep : List Char) : List (List Char) → List Char
  | [] => []
  | [a] => a
  | a :: b :: rest => a ++ sep ++ joinChars sep (b :: rest)

/-- The function `strings.Join`. -/
def Join (elems : List String) (sep : String) : String :=
  ⟨joinChars sep.data (elems.map String.data)⟩

/-! ## Time -/

/-- A `time.Time`, as the number of nanoseconds since `0001-01-01T00:00:00Z`. -/
abbrev Instant := Int

/-- The zero value of `time.Time`. -/
def zeroTime : Instant := 0

/-- The method `Time.IsZero`. -/
def IsZero (t : Instant) : Bool := t == 0

/-- Value of a decimal digit. -/
def digit (c : Char) : Option Nat :=
  if inRange '0' '9' c then some (c.toNat - 48) else Option.none

/-- Value of a two-digit field. -/
def num2 (a b : Char) : Option Nat :=
  match digit a, digit b with
  | some x, some y => some (10 * x + y)
  | _, _ => Option.none

/-- Gregorian leap years. -/
def isLeap (y : Nat) : Bool := y % 4 == 0 && (y % 100 != 0 || y % 400 == 0)

/-- Number of days of month `m` in year `y`. -/
def daysIn (m y : Nat) : Nat :=
  if m == 2 then (if isLeap y then 29 else 28)
  else if m == 4 || m == 6 || m == 9 || m == 11 then 30 else 31

/-- Days from `0001-01-01` to the first day of year `y`. -/
def daysBeforeYear (y : Nat) : Int :=
  let p : Int := (y : Int) - 1
  365 * p + p / 4 - p / 100 + p / 400

/-- Days from the first day of year `y` to the first day of its month `m`. -/
def daysBeforeMonth (m y : Nat) : Nat :=
  (List.range (m - 1)).foldl (fun acc i => acc + daysIn (i + 1) y) 0

/-- Nanoseconds denoted by the digits of a fractional second (at most nine are used). -/
def fracNanos (ds : List Char) : Nat :=
  ((ds.take 9).foldl (fun acc c => 10 * acc + (c.toNat - 48)) 0) * 10 ^ (9 - (ds.take 9).length)

/-- The zone designator `Z` or `±hh:mm`, as an offset in seconds east of UTC. -/
def parseZone : List Char → Option Int
  | ['Z'] => some 0
  | [sg, h1, h2, ':', m1, m2] =>
    match num2 h1 h2, num2 m1 m2 with
    | some h, some m =>
      if h ≤ 23 ∧ m ≤ 59 then
        (if sg = '+' then some (((h * 60 + m) * 60 : Nat) : Int)
         else if sg = '-' then some (-(((h * 60 + m) * 60 : Nat) : Int))
         else Option.none)
      else Option.none
    | _, _ => Option.none
  | _ => Option.none

/-- The optional fractional second and the zone designator that end a timestamp. -/
def parseTail (rest : List Char) : Option (Nat × Int) :=
  match rest with
  | '.' :: more =>
    let ds := more.takeWhile (inRange '0' '9')
    if ds.isEmpty then Option.none
    else (parseZone (more.dropWhile (inRange '0' '9'))).map (fun z => (fracNanos ds, z))
  | _ => (parseZone rest).map (fun z => (0, z))

/-- A reference reading of timestamps in strict RFC 3339 syntax,
`YYYY-MM-DDThh:mm:ss[.fraction](Z|±hh:mm)`, with the range checks of the library
(month 1-12, day within the month, hour below 24, minute and second below 60).  It is the
parser of the example environments below; the handler itself takes the parser from its
environment. -/
def parseRFC3339 (s : String) : Option Instant :=
  match s.data with
  | y1 :: y2 :: y3 :: y4 :: '-' :: mo1 :: mo2 :: '-' :: d1 :: d2 :: 'T' ::
      h1 :: h2 :: ':' :: mi1 :: mi2 :: ':' :: s1 :: s2 :: rest =>
    match num2 y1 y2, num2 y3 y4, num2 mo1 mo2, num2 d1 d2, num2 h1 h2, num2 mi1 mi2,
        num2 s1 s2, parseTail rest with
    | some yh, some yl, some mo, some d, some h, some mi, some sec, some (ns, off) =>
      let y := 100 * yh + yl
      if 1 ≤ mo ∧ mo ≤ 12 ∧ 1 ≤ d ∧ d ≤ daysIn mo y ∧ h ≤ 23 ∧ mi ≤ 59 ∧ sec ≤ 59 then
        let days : Int := daysBeforeYear y + ((daysBeforeMonth mo y + (d - 1) : Nat) : Int)
        let secs : Int := days * 86400 + ((h * 3600 + mi * 60 + sec : Nat) : Int) - off
        some (secs * 1000000000 + (ns : Int))
      else Option.none
    | _, _, _, _, _, _, _, _ => Option.none
  | _ => Option.none

/-! ## The table `scheduled_emails` -/

/-- One row of `scheduled_emails`.  `id` is the key of the table.  `subject` and `body` are
text columns and may hold SQL NULL (the table declaration is not part of the program, and
the dispatch loop guards against rows it cannot scan); `recipients` is a text array, a NULL
array being scanned like the empty one. -/
structure Row where
  id : Int
  recipients : List String
  subject : Option String
  body : Option String
  schedule_at : Instant
  status : String
deriving DecidableEq, Repr

/-- The table, in the order in which a query returns its rows. -/
abbrev Store := List Row

/-- How the database reads the text `{e1,e2,...}` as a text array, for elements written
without quotes, braces, backslashes or surrounding blanks: the text between the outer braces,
cut at every comma. -/
def decodeRecipients (s : String) : Option (List String) :=
  match s.data with
  | '\x7b' :: rest =>
    if rest.getLast? = some '\x7d' then some ((splitOn ',' rest.dropLast).map String.mk)
    else Option.none
  | _ => Option.none

/-- The text that `saveScheduledEmail` passes as the `recipients` parameter. -/
def recipientsStr (recipients : List String) : String :=
  "\x7b" ++ Join recipients "," ++ "\x7d"

/-! ## Calls that leave the process -/

/-- A call recorded in the trace of the handler. -/
inductive Call where
  | saveScheduledEmail (recipients : List String) (subject body : String)
      (scheduledAt : Instant) : Call
  | sendEmail (recipients : List String) (subject body : String) : Call
deriving DecidableEq, Repr

/-- What the outside world answers during one run of the handler. -/
structure Env where
  /-- Result of `time.Parse(time.RFC3339, ·)`, `none` for an error. -/
  parseTime : String → Option Instant
  /-- Whether the `INSERT` of `saveScheduledEmail` is executed without error. -/
  insertOk : Bool
  /-- The identifier the table assigns to an inserted row. -/
  newId : Int
  /-- Whether `sendEmail` returns without error. -/
  sendOk : Bool

/-- The function `saveScheduledEmail`: one `INSERT` with status `pending`; the result is the
table afterwards and whether the call returned without error. -/
def saveScheduledEmail (env : Env) (db : Store) (recipients : List String)
    (subject body : String) (scheduledAt : Instant) : Store × Bool :=
  match env.insertOk, decodeRecipients (recipientsStr recipients) with
  | true, some rs =>
    (db ++ [{ id := env.newId, recipients := rs, subject := some subject, body := some body,
              schedule_at := scheduledAt, status := "pending" }], true)
  | _, _ => (db, false)

/-! ## The submission handler (`sendEmailHandler`) -/

/-- An uploaded file: its text, and whether the scanner ended with an error (a failed read,
or a line longer than the scanner accepts). -/
structure Upload where
  content : String
  scanErr : Bool
deriving DecidableEq, Repr

/-- The form fields of a request to `/send-email`.  `file` is present when `FormFile`
returned a file and no error. -/
structure Request where
  subject : String
  body : String
  scheduled_time : String
  file : Option Upload
  emails : String
deriving DecidableEq, Repr

/-- The JSON answers of the handler: `{"error": ...}`, or a message with the two lists. -/
inductive Response where
  | error (status : Nat) (error : String) : Response
  | message (status : Nat) (message : String) (valid_emails invalid_emails : List String) :
      Response
deriving DecidableEq, Repr

/-- Result of one run of the handler. -/
structure HandlerResult where
  response : Response
  calls : List Call
  db : Store
deriving DecidableEq, Repr

/-- The loop body shared by both input paths: trim the token, drop it when empty, append it
to the valid or to the invalid list. -/
def classifyStep (acc : List String × List String) (tok : String) : List String × List String :=
  let email := TrimSpace tok
  if email ≠ "" then
    (if isValidEmail email then (acc.1 ++ [email], acc.2) else (acc.1, acc.2 ++ [email]))
  else acc

/-- The classification loop over the tokens, from empty lists. -/
def classify (tokens : List String) : List String × List String :=
  tokens.foldl classifyStep ([], [])

/-- The tokens of a request: the lines of the uploaded file when there is one, otherwise the
fields of `emails` separated by commas and newlines. -/
def tokens (req : Request) : List String :=
  match req.file with
  | some up => scanLines up.content
  | Option.none => FieldsFunc req.emails (fun r => r == ',' || r == '\n')

/-- Whether the handler finds `scanner.Err() != nil` after its loop over the upload. -/
def scanFailed (req : Request) : Bool :=
  match req.file with
  | some up => up.scanErr
  | Option.none => false

/-- The list `validEmails` of a request. -/
def validEmails (req : Request) : List String := (classify (tokens req)).1

/-- The list `invalidEmails` of a request. -/
def invalidEmails (req : Request) : List String := (classify (tokens req)).2

/-- The function `sendEmailHandler`. -/
def sendEmailHandler (env : Env) (db : Store) (req : Request) : HandlerResult :=
  let parsed : Option Instant :=
    if req.scheduled_time ≠ "" then env.parseTime req.scheduled_time else some zeroTime
  match parsed with
  | Option.none =>
    ⟨Response.error 400 "Invalid scheduled_time format. Use RFC3339 format.", [], db⟩
  | some scheduleTimeParsed =>
    if scanFailed req then ⟨Response.error 400 "Failed to parse uploaded file", [], db⟩
    else if (validEmails req).length = 0 then
      ⟨Response.message 200 "No valid emails to send to, but request was received."
        (validEmails req) (invalidEmails req), [], db⟩
    else if !IsZero scheduleTimeParsed then
      match saveScheduledEmail env db (validEmails req) req.subject req.body
          scheduleTimeParsed with
      | (db1, false) =>
        ⟨Response.error 500 "Failed to schedule email",
          [Call.saveScheduledEmail (validEmails req) req.subject req.body scheduleTimeParsed],
          db1⟩
      | (db1, true) =>
        ⟨Response.message 200 "Email scheduled successfully" (validEmails req)
          (invalidEmails req),
          [Call.saveScheduledEmail (validEmails req) req.subject req.body scheduleTimeParsed],
          db1⟩
    else if !env.sendOk then
      ⟨Response.error 500 "Failed to send email",
        [Call.sendEmail (validEmails req) req.subject req.body], db⟩
    else
      ⟨Response.message 200 "Emails sent successfully" (validEmails req) (invalidEmails req),
        [Call.sendEmail (validEmails req) req.subject req.body], db⟩

/-! ## The dispatch loop (`runEmailScheduler`) -/

/-- The variables filled by `rows.Scan` for one row. -/
structure Scanned where
  id : Int
  recipients : List String
  subject : String
  body : String
deriving DecidableEq, Repr

/-- The call `rows.Scan(&id, &recipients, &subject, &body)`: it fails when a NULL would have
to be stored in a Go string. -/
def scan (r : Row) : Option Scanned :=
  match r.subject, r.body with
  | some s, some b => some ⟨r.id, r.recipients, s, b⟩
  | _, _ => Option.none

/-- What the outside world answers during one iteration of the loop of `runEmailScheduler`. -/
structure Tick where
  /-- The reading of `time.Now().UTC()`. -/
  now : Instant
  /-- Whether `db.Query` returns without error. -/
  queryOk : Bool
  /-- Whether `sendEmail` succeeds for the row at the given position of the result. -/
  sendOk : Nat → Bool
  /-- Whether the `UPDATE` issued for the row at the given position is executed. -/
  updateOk : Nat → Bool

/-- The query `SELECT ... WHERE schedule_at <= $1 AND status = 'pending'`. -/
def fetchDue (db : Store) (now : Instant) : List Row :=
  db.filter (fun r => decide (r.schedule_at ≤ now) && r.status == "pending")

/-- The statement `UPDATE scheduled_emails SET status = ... WHERE id = $1`, whose error the
caller discards; `ok` tells whether it was executed. -/
def execUpdate (ok : Bool) (db : Store) (status : String) (id : Int) : Store :=
  if ok then db.map (fun r => if r.id = id then { r with status := status } else r) else db

/-- The loop `for rows.Next()` over the rows of a result; the trace lists the calls to
`sendEmail`, each with the identifier of its row. -/
def processRows : List Row → (Nat → Bool) → (Nat → Bool) → Store → Store × List Scanned
  | [], _, _, db => (db, [])
  | r :: rest, sendOk, updateOk, db =>
    match scan r with
    | Option.none => processRows rest (fun k => sendOk (k + 1)) (fun k => updateOk (k + 1)) db
    | some sc =>
      let db1 :=
        if !sendOk 0 then execUpdate (updateOk 0) db "failed" sc.id
        else execUpdate (updateOk 0) db "sent" sc.id
      let out := processRows rest (fun k => sendOk (k + 1)) (fun k => updateOk (k + 1)) db1
      (out.1, sc :: out.2)

/-- One iteration of the loop of `runEmailScheduler` (a dispatch cycle). -/
def dispatchCycle (t : Tick) (db : Store) : Store × List Scanned :=
  if !t.queryOk then (db, [])
  else processRows (fetchDue db t.now) t.sendOk t.updateOk db

/-- The loop of `runEmailScheduler` over a finite sequence of ticks. -/
def runEmailScheduler : List Tick → Store → Store × List Scanned
  | [], db => (db, [])
  | t :: ts, db =>
    let out := dispatchCycle t db
    let later := runEmailScheduler ts out.1
    (later.1, out.2 ++ later.2)

/-! ## Example data -/

/-- An environment in which every outside call succeeds. -/
def envOk : Env :=
  { parseTime := parseRFC3339, insertOk := true, newId := 1, sendOk := true }

/-- The instant `2026-01-01T00:00:00Z`, used as a clock reading. -/
def clock2026 : Instant := 63902822400000000000

/-- A submission without `scheduled_time`, with one valid and one malformed address. -/
def reqNow : Request :=
  { subject := "Hello", body := "<p>Hi</p>", scheduled_time := "", file := Option.none,
    emails := "a@b.com,bad-addr" }

/-- The same submission as an uploaded list. -/
def reqUpload : Request :=
  { subject := "Hello", body := "<p>Hi</p>", scheduled_time := "",
    file := some { content := "a@b.com\r\n  bad-addr\n\n", scanErr := false }, emails := "" }

/-- A submission scheduled for the start of the year 2000. -/
def reqPast : Request :=
  { subject := "Hello", body := "<p>Hi</p>", scheduled_time := "2000-01-01T00:00:00Z",
    file := Option.none, emails := "a@b.com" }

/-- A submission scheduled for the start of the year 2100, with a repeated address. -/
def reqFuture : Request :=
  { subject := "Hello", body := "<p>Hi</p>", scheduled_time := "2100-01-01T00:00:00Z",
    file := Option.none, emails := "x@y.com, bad-addr, x@y.com" }

/-- A submission whose `scheduled_time` is not a timestamp and whose only token is malformed. -/
def reqBadTime : Request :=
  { subject := "Hello", body := "<p>Hi</p>", scheduled_time := "tomorrow",
    file := Option.none, emails := "bad-addr" }

/-- A submission without `scheduled_time` whose tokens are all malformed. -/
def reqNoValid : Request :=
  { subject := "Hello", body := "<p>Hi</p>", scheduled_time := "",
    file := Option.none, emails := "bad-addr\n@nowhere" }

/-- A pending row. -/
def rowAt (id : Int) (at_ : Instant) : Row :=
  { id := id, recipients := ["a@b.com"], subject := some "Hello", body := some "<p>Hi</p>",
    schedule_at := at_, status := "pending" }

/-- A pending row whose subject is NULL. -/
def rowNullSubject : Row :=
  { id := 1, recipients := ["a@b.com"], subject := Option.none, body := some "<p>Hi</p>",
    schedule_at := 5, status := "pending" }

/-- A tick at instant 100 at which the query fails. -/
def tickQueryFails : Tick :=
  { now := 100, queryOk := false, sendOk := fun _ => true, updateOk := fun _ => true }

/-- A tick at instant 100 at which the relay accepts every message and no update is
executed. -/
def tickUpdateFails : Tick :=
  { now := 100, queryOk := true, sendOk := fun _ => true, updateOk := fun _ => false }

/-- A tick at instant 100 at which the relay refuses the second message of the result. -/
def tickSecondFails : Tick :=
  { now := 100, queryOk := true, sendOk := fun k => k != 1, updateOk := fun _ => true }

/-- A tick at instant 200 at which every call succeeds. -/
def tickLater : Tick :=
  { now := 200, queryOk := true, sendOk := fun _ => true, updateOk := fun _ => true }

/-- A table with three rows due at instant 100 and one due later. -/
def dbExample : Store := [rowAt 1 5, rowAt 2 50, rowAt 3 100, rowAt 4 500]

/-! ## Correctness of the matcher -/

namespace Regex

theorem nil_mem_lang (r : Regex) : [] ∈ r.lang ↔ r.nullable = true := by
  induction r with
  | none => simp [lang, nullable, Language.not_mem_zero]
  | eps => simp [lang, nullable, Language.mem_one]
  | cls p =>
    simp only [lang, nullable]
    constructor
    · rintro ⟨c, _, h⟩
      cases h
    · intro h
      cases h
  | cat a b iha ihb =>
    simp only [lang, nullable, Language.mem_mul, Bool.and_eq_true, ← iha, ← ihb]
    constructor
    · rintro ⟨x, hx, y, hy, hxy⟩
      obtain ⟨rfl, rfl⟩ := List.append_eq_nil.mp hxy
      exact ⟨hx, hy⟩
    · rintro ⟨hx, hy⟩
      exact ⟨[], hx, [], hy, rfl⟩
  | alt a b iha ihb =>
    simp only [lang, nullable, Language.mem_add, Bool.or_eq_true, ← iha, ← ihb]
  | star a _ =>
    simp only [lang, nullable, iff_true]
    exact Language.nil_mem_kstar _

theorem cons_mem_kstar (l : Language Char) (c : Char) (w : List Char) :
    c :: w ∈ KStar.kstar l ↔ ∃ u v, c :: u ∈ l ∧ v ∈ KStar.kstar l ∧ u ++ v = w := by
  constructor
  · intro h
    obtain ⟨S, hS, hmem⟩ := Language.mem_kstar_iff_exists_nonempty.mp h
    cases S with
    | nil => simp at hS
    | cons y S =>
      have hy := hmem y (List.mem_cons_self _ _)
      cases y with
      | nil => exact absurd rfl hy.2
      | cons d u =>
        simp only [List.flatten, List.cons_append, List.cons.injEq] at hS
        obtain ⟨rfl, rfl⟩ := hS
        refine ⟨u, S.flatten, hy.1, ?_, rfl⟩
        exact Language.join_mem_kstar (fun z hz => (hmem z (List.mem_cons_of_mem _ hz)).1)
  · rintro ⟨u, v, hu, hv, rfl⟩
    obtain ⟨S, rfl, hS⟩ := Language.mem_kstar.mp hv
    refine Language.mem_kstar.mpr ⟨(c :: u) :: S, by simp, ?_⟩
    intro y hy
    rcases List.mem_cons.mp hy with rfl | hy
    · exact hu
    · exact hS y hy

theorem mem_lang_deriv (r : Regex) (c : Char) : ∀ w, w ∈ (r.deriv c).lang ↔ c :: w ∈ r.lang := by
  induction r with
  | none => intro w; simp [lang, deriv, Language.not_mem_zero]
  | eps => intro w; simp [lang, deriv, Language.not_mem_zero, Language.mem_one]
  | cls p =>
    intro w
    by_cases hp : p c = true
    · simp only [deriv, hp, if_true, lang, Language.mem_one]
      constructor
      · rintro rfl
        exact ⟨c, hp, rfl⟩
      · rintro ⟨d, _, h⟩
        simp only [List.cons.injEq] at h
        exact h.2
    · simp only [deriv, hp, lang, Language.not_mem_zero, false_iff]
      rintro ⟨d, hd, h⟩
      simp only [List.cons.injEq] at h
      rw [h.1] at hp
      exact hp hd
  | cat a b iha ihb =>
    intro w
    have key : c :: w ∈ a.lang * b.lang ↔
        ([] ∈ a.lang ∧ c :: w ∈ b.lang) ∨ ∃ u v, c :: u ∈ a.lang ∧ v ∈ b.lang ∧ u ++ v = w := by
      rw [Language.mem_mul]
      constructor
      · rintro ⟨x, hx, y, hy, hxy⟩
        cases x with
        | nil => left; simp only [List.nil_append] at hxy; subst hxy; exact ⟨hx, hy⟩
        | cons d u =>
          right
          simp only [List.cons_append, List.cons.injEq] at hxy
          obtain ⟨rfl, rfl⟩ := hxy
          exact ⟨u, y, hx, hy, rfl⟩
      · rintro (⟨hx, hy⟩ | ⟨u, v, hu, hv, rfl⟩)
        · exact ⟨[], hx, c :: w, hy, rfl⟩
        · exact ⟨c :: u, hu, v, hv, rfl⟩
    have left : w ∈ (cat (a.deriv c) b).lang ↔ ∃ u v, c :: u ∈ a.lang ∧ v ∈ b.lang ∧ u ++ v = w := by
      simp only [lang, Language.mem_mul]
      constructor
      · rintro ⟨u, hu, v, hv, rfl⟩
        exact ⟨u, v, (iha u).mp hu, hv, rfl⟩
      · rintro ⟨u, v, hu, hv, rfl⟩
        exact ⟨u, (iha u).mpr hu, v, hv, rfl⟩
    by_cases hn : a.nullable = true
    · have hnil := (nil_mem_lang a).mpr hn
      simp only [deriv, hn, if_true]
      show w ∈ (cat (a.deriv c) b).lang + (b.deriv c).lang ↔ c :: w ∈ a.lang * b.lang
      rw [Language.mem_add, left, ihb w, key]
      constructor
      · rintro (h | h)
        · exact Or.inr h
        · exact Or.inl ⟨hnil, h⟩
      · rintro (h | h)
        · exact Or.inr h.2
        · exact Or.inl h
    · have hnil : [] ∉ a.lang := fun h => hn ((nil_mem_lang a).mp h)
      simp only [deriv, hn]
      show w ∈ (cat (a.deriv c) b).lang ↔ c :: w ∈ a.lang * b.lang
      rw [left, key]
      constructor
      · intro h
        exact Or.inr h
      · rintro (h | h)
        · exact absurd h.1 hnil
        · exact h
  | alt a b iha ihb =>
    intro w
    simp only [lang, deriv, Language.mem_add, iha w, ihb w]
  | star a iha =>
    intro w
    simp only [lang, deriv, Language.mem_mul]
    rw [cons_mem_kstar]
    constructor
    · rintro ⟨u, hu, v, hv, rfl⟩
      exact ⟨u, v, (iha u).mp hu, hv, rfl⟩
    · rintro ⟨u, v, hu, hv, rfl⟩
      exact ⟨u, (iha u).mpr hu, v, hv, rfl⟩

theorem fullMatch_iff_mem_lang (w : List Char) : ∀ r : Regex, r.fullMatch w = true ↔ w ∈ r.lang := by
  induction w with
  | nil => intro r; simp only [fullMatch]; exact (nil_mem_lang r).symm
  | cons c w ih => intro r; simp only [fullMatch]; rw [ih, mem_lang_deriv]

theorem mem_lang_star_cls (p : Char → Bool) (w : List Char) :
    w ∈ (star (cls p)).lang ↔ ∀ c ∈ w, p c = true := by
  induction w with
  | nil => simp [lang, Language.nil_mem_kstar]
  | cons d w ih =>
    simp only [lang] at ih ⊢
    rw [cons_mem_kstar]
    constructor
    · rintro ⟨u, v, ⟨e, he, hu⟩, hv, rfl⟩
      simp only [List.cons.injEq] at hu
      obtain ⟨rfl, rfl⟩ := hu
      simp only [List.nil_append] at ih ⊢
      intro x hx
      rcases List.mem_cons.mp hx with rfl | hx
      · exact he
      · exact ih.mp hv x hx
    · intro h
      refine ⟨[], w, ⟨d, h d (List.mem_cons_self _ _), rfl⟩, ?_, rfl⟩
      exact ih.mpr (fun x hx => h x (List.mem_cons_of_mem _ hx))

theorem mem_lang_plus_cls (p : Char → Bool) (w : List Char) :
    w ∈ (plus (cls p)).lang ↔ w ≠ [] ∧ ∀ c ∈ w, p c = true := by
  have hs := mem_lang_star_cls p
  simp only [plus, lang, Language.mem_mul] at hs ⊢
  constructor
  · rintro ⟨u, ⟨e, he, rfl⟩, v, hv, rfl⟩
    refine ⟨by simp, ?_⟩
    intro x hx
    rcases List.mem_cons.mp hx with rfl | hx
    · exact he
    · exact (hs v).mp hv x hx
  · rintro ⟨hne, h⟩
    cases w with
    | nil => exact absurd rfl hne
    | cons d w =>
      exact ⟨[d], ⟨d, h d (List.mem_cons_self _ _), rfl⟩, w,
        (hs w).mpr (fun x hx => h x (List.mem_cons_of_mem _ hx)), rfl⟩


theorem mem_lang_lit (c : Char) (w : List Char) : w ∈ (lit c).lang ↔ w = [c] := by
  simp only [lit, lang]
  constructor
  · rintro ⟨d, hd, rfl⟩
    have : d = c := by simpa using hd
    rw [this]
  · rintro rfl
    exact ⟨c, by simp, rfl⟩

theorem mem_lang_atLeast2_cls (p : Char → Bool) (w : List Char) :
    w ∈ (atLeast2 (cls p)).lang ↔ 2 ≤ w.length ∧ ∀ c ∈ w, p c = true := by
  have hs := mem_lang_star_cls p
  simp only [atLeast2, lang, Language.mem_mul] at hs ⊢
  constructor
  · rintro ⟨u, ⟨e, he, rfl⟩, v, ⟨u2, ⟨e2, he2, rfl⟩, v2, hv2, rfl⟩, rfl⟩
    refine ⟨by simp, ?_⟩
    intro x hx
    simp only [List.cons_append, List.nil_append, List.mem_cons] at hx
    rcases hx with rfl | rfl | hx
    · exact he
    · exact he2
    · exact (hs v2).mp hv2 x hx
  · rintro ⟨hlen, h⟩
    match w, hlen, h with
    | d1 :: d2 :: w, _, h =>
      exact ⟨[d1], ⟨d1, h d1 (by simp), rfl⟩, d2 :: w,
        ⟨[d2], ⟨d2, h d2 (by simp), rfl⟩, w, (hs w).mpr (fun x hx => h x (by simp [hx])), rfl⟩,
        rfl⟩

end Regex

/-- Shape of the words accepted by `isValidEmail`. -/
theorem isValidEmail_iff_shape (email : String) :
    isValidEmail email = true ↔
      ∃ loc dom tld : List Char,
        email.data = loc ++ '@' :: (dom ++ '.' :: tld) ∧
        loc ≠ [] ∧ (∀ c ∈ loc, isLocalChar c = true) ∧
        dom ≠ [] ∧ (∀ c ∈ dom, isDomainChar c = true) ∧
        2 ≤ tld.length ∧ ∀ c ∈ tld, isLetter c = true := by
  unfold isValidEmail
  rw [Regex.fullMatch_iff_mem_lang]
  unfold emailRegex
  constructor
  · intro h
    rw [Regex.lang, Language.mem_mul] at h
    obtain ⟨loc, hloc, r1, h1, e1⟩ := h
    rw [Regex.lang, Language.mem_mul] at h1
    obtain ⟨at_, hat, r2, h2, e2⟩ := h1
    rw [Regex.lang, Language.mem_mul] at h2
    obtain ⟨dom, hdom, r3, h3, e3⟩ := h2
    rw [Regex.lang, Language.mem_mul] at h3
    obtain ⟨dot, hdot, tld, htld, e4⟩ := h3
    rw [Regex.mem_lang_lit] at hat hdot
    rw [Regex.mem_lang_plus_cls] at hloc hdom
    rw [Regex.mem_lang_atLeast2_cls] at htld
    subst hat hdot e4 e3 e2
    exact ⟨loc, dom, tld, by simp [← e1], hloc.1, hloc.2, hdom.1, hdom.2, htld.1, htld.2⟩
  · rintro ⟨loc, dom, tld, he, hl1, hl2, hd1, hd2, ht1, ht2⟩
    rw [he]
    rw [Regex.lang, Language.mem_mul]
    refine ⟨loc, (Regex.mem_lang_plus_cls _ _).mpr ⟨hl1, hl2⟩, _, ?_, rfl⟩
    rw [Regex.lang, Language.mem_mul]
    refine ⟨['@'], (Regex.mem_lang_lit _ _).mpr rfl, _, ?_, rfl⟩
    rw [Regex.lang, Language.mem_mul]
    refine ⟨dom, (Regex.mem_lang_plus_cls _ _).mpr ⟨hd1, hd2⟩, _, ?_, rfl⟩
    rw [Regex.lang, Language.mem_mul]
    exact ⟨['.'], (Regex.mem_lang_lit _ _).mpr rfl, tld,
      (Regex.mem_lang_atLeast2_cls _ _).mpr ⟨ht1, ht2⟩, rfl⟩

/-! ## Runes of a valid address -/

theorem isLetter_domainChar (c : Char) (h : isLetter c = true) : isDomainChar c = true := by
  simp only [isLetter, isDomainChar, Bool.or_eq_true] at h ⊢
  tauto

theorem isDomainChar_localChar (c : Char) (h : isDomainChar c = true) : isLocalChar c = true := by
  simp only [isLocalChar, isDomainChar, Bool.or_eq_true] at h ⊢
  tauto

/-- Every rune of a valid address is in the class of the local part, or is `@`. -/
theorem isValidEmail_chars (email : String) (h : isValidEmail email = true) :
    ∀ c ∈ email.data, isLocalChar c = true ∨ c = '@' := by
  obtain ⟨loc, dom, tld, he, _, hl, _, hd, _, ht⟩ := (isValidEmail_iff_shape email).mp h
  intro c hc
  rw [he] at hc
  simp only [List.mem_append, List.mem_cons] at hc
  rcases hc with hc | rfl | hc | rfl | hc
  · exact Or.inl (hl c hc)
  · exact Or.inr rfl
  · exact Or.inl (isDomainChar_localChar c (hd c hc))
  · exact Or.inl (by decide)
  · exact Or.inl (isDomainChar_localChar c (isLetter_domainChar c (ht c hc)))

theorem inRange_toNat (lo hi c : Char) (h : inRange lo hi c = true) :
    lo.toNat ≤ c.toNat ∧ c.toNat ≤ hi.toNat := by
  simp only [inRange, Bool.and_eq_true, decide_eq_true_eq] at h
  exact h

/-- The runes of a valid address are printable ASCII other than the blank. -/
theorem validChar_toNat (c : Char) (h : isLocalChar c = true ∨ c = '@') :
    37 ≤ c.toNat ∧ c.toNat ≤ 122 := by
  rcases h with h | rfl
  · simp only [isLocalChar, Bool.or_eq_true, beq_iff_eq] at h
    rcases h with ((((((h | h) | h) | rfl) | rfl) | rfl) | rfl) | rfl
    · have := inRange_toNat _ _ _ h
      have e1 : ('a' : Char).toNat = 97 := rfl
      have e2 : ('z' : Char).toNat = 122 := rfl
      omega
    · have := inRange_toNat _ _ _ h
      have e1 : ('A' : Char).toNat = 65 := rfl
      have e2 : ('Z' : Char).toNat = 90 := rfl
      omega
    · have := inRange_toNat _ _ _ h
      have e1 : ('0' : Char).toNat = 48 := rfl
      have e2 : ('9' : Char).toNat = 57 := rfl
      omega
    all_goals decide
  · decide

theorem validChar_not_space (c : Char) (h : isLocalChar c = true ∨ c = '@') :
    isSpace c = false := by
  have hn := validChar_toNat c h
  simp only [isSpace, Bool.or_eq_false_iff, Bool.and_eq_false_imp, decide_eq_true_eq,
    decide_eq_false_iff_not, beq_eq_false_iff_ne, ne_eq]
  omega

theorem validChar_ne (c d : Char) (h : isLocalChar c = true ∨ c = '@')
    (hd : isLocalChar d = false) (hd2 : d ≠ '@') : c ≠ d := by
  rintro rfl
  rcases h with h | h
  · rw [h] at hd
    cases hd
  · exact hd2 h

/-! ## The recipients text and its reading -/

theorem splitOn_no_sep (sep : Char) (a : List Char) (h : sep ∉ a) : splitOn sep a = [a] := by
  induction a with
  | nil => rfl
  | cons c cs ih =>
    have hc : c ≠ sep := fun e => h (by simp [e])
    have hcs : sep ∉ cs := fun e => h (List.mem_cons_of_mem _ e)
    simp [splitOn, hc, ih hcs]

theorem splitOn_append_sep (sep : Char) (a rest : List Char) (h : sep ∉ a) :
    splitOn sep (a ++ sep :: rest) = a :: splitOn sep rest := by
  induction a with
  | nil => simp [splitOn]
  | cons c cs ih =>
    have hc : c ≠ sep := fun e => h (by simp [e])
    have hcs : sep ∉ cs := fun e => h (List.mem_cons_of_mem _ e)
    simp [splitOn, hc, ih hcs]

theorem splitOn_joinChars (sep : Char) (L : List (List Char)) (hne : L ≠ [])
    (h : ∀ a ∈ L, sep ∉ a) : splitOn sep (joinChars [sep] L) = L := by
  induction L with
  | nil => exact absurd rfl hne
  | cons a rest ih =>
    cases rest with
    | nil => exact splitOn_no_sep sep a (h a (by simp))
    | cons b rest =>
      have hrest : ∀ x ∈ b :: rest, sep ∉ x := fun x hx => h x (List.mem_cons_of_mem _ hx)
      have e : joinChars [sep] (a :: b :: rest) = a ++ sep :: joinChars [sep] (b :: rest) := by
        simp [joinChars]
      rw [e, splitOn_append_sep sep a _ (h a (by simp)), ih (by simp) hrest]

/-- Reading back the recipients text of a non-empty list whose elements hold no comma. -/
theorem decodeRecipients_recipientsStr (recipients : List String) (hne : recipients ≠ [])
    (h : ∀ e ∈ recipients, ',' ∉ e.data) :
    decodeRecipients (recipientsStr recipients) = some recipients := by
  have hdata : (recipientsStr recipients).data =
      '\x7b' :: (joinChars [','] (recipients.map String.data) ++ ['\x7d']) := by
    simp [recipientsStr, Join, String.data_append]
  have hL : recipients.map String.data ≠ [] := by simpa using hne
  have hsep : ∀ a ∈ recipients.map String.data, ',' ∉ a := by
    intro a ha
    obtain ⟨e, he, rfl⟩ := List.mem_map.mp ha
    exact h e he
  unfold decodeRecipients
  rw [hdata]
  simp only [List.getLast?_append, List.getLast?_singleton, Option.or_some, if_true,
    List.dropLast_concat, splitOn_joinChars ',' _ hL hsep, List.map_map]
  have hid : (String.mk ∘ String.data) = id := by
    funext s
    rfl
  rw [hid, List.map_id]

/-- The recipients text of valid addresses reads back as the list itself. -/
theorem decodeRecipients_valid (recipients : List String) (hne : recipients ≠ [])
    (hvalid : ∀ e ∈ recipients, isValidEmail e = true) :
    decodeRecipients (recipientsStr recipients) = some recipients := by
  apply decodeRecipients_recipientsStr recipients hne
  intro e he hc
  exact validChar_ne ',' ',' (isValidEmail_chars e (hvalid e he) ',' hc) (by decide) (by decide) rfl

/-! ## The classification loop -/

theorem foldl_classifyStep (toks : List String) :
    ∀ acc : List String × List String,
      toks.foldl classifyStep acc =
        (acc.1 ++ (toks.map TrimSpace).filter (fun e => decide (e ≠ "") && isValidEmail e),
         acc.2 ++ (toks.map TrimSpace).filter (fun e => decide (e ≠ "") && !isValidEmail e)) := by
  induction toks with
  | nil => intro acc; simp
  | cons tok rest ih =>
    intro acc
    rw [List.foldl_cons, ih]
    by_cases he : TrimSpace tok = ""
    · simp [classifyStep, he]
    · by_cases hv : isValidEmail (TrimSpace tok) = true
      · simp [classifyStep, he, hv]
      · simp [classifyStep, he, hv]

theorem classify_eq_filter (toks : List String) :
    classify toks =
      ((toks.map TrimSpace).filter (fun e => decide (e ≠ "") && isValidEmail e),
       (toks.map TrimSpace).filter (fun e => decide (e ≠ "") && !isValidEmail e)) := by
  unfold classify
  rw [foldl_classifyStep]
  simp

theorem validEmails_valid (req : Request) : ∀ e ∈ validEmails req, isValidEmail e = true := by
  intro e he
  unfold validEmails at he
  rw [classify_eq_filter] at he
  simp only [List.mem_filter, Bool.and_eq_true] at he
  exact he.2.2

/-! ## The submission handler -/

theorem saveScheduledEmail_valid (env : Env) (db : Store) (recipients : List String)
    (subject body : String) (t : Instant) (hne : recipients ≠ [])
    (hvalid : ∀ e ∈ recipients, isValidEmail e = true) :
    saveScheduledEmail env db recipients subject body t =
      if env.insertOk then
        (db ++ [{ id := env.newId, recipients := recipients, subject := some subject,
                  body := some body, schedule_at := t, status := "pending" }], true)
      else (db, false) := by
  unfold saveScheduledEmail
  rw [decodeRecipients_valid recipients hne hvalid]
  cases env.insertOk <;> rfl

/-- A readable submission with a valid address and a timestamp other than the zero instant
is stored, whatever the clock reads, and the relay is not called. -/
theorem handler_scheduled (env : Env) (db : Store) (req : Request) (t : Instant)
    (hscan : scanFailed req = false) (hne : validEmails req ≠ [])
    (hpresent : req.scheduled_time ≠ "") (hparse : env.parseTime req.scheduled_time = some t)
    (hnz : t ≠ zeroTime) :
    sendEmailHandler env db req =
      if env.insertOk then
        ⟨Response.message 200 "Email scheduled successfully" (validEmails req)
            (invalidEmails req),
          [Call.saveScheduledEmail (validEmails req) req.subject req.body t],
          db ++ [{ id := env.newId, recipients := validEmails req, subject := some req.subject,
                   body := some req.body, schedule_at := t, status := "pending" }]⟩
      else
        ⟨Response.error 500 "Failed to schedule email",
          [Call.saveScheduledEmail (validEmails req) req.subject req.body t], db⟩ := by
  have hlen : (validEmails req).length ≠ 0 := by
    intro h
    exact hne (List.length_eq_zero.mp h)
  have hz : IsZero t = false := by
    simp only [IsZero, beq_eq_false_iff_ne, ne_eq]
    exact hnz
  unfold sendEmailHandler
  simp only [hpresent, ne_eq, not_false_eq_true, if_true, hparse, hscan, hlen, if_false, hz,
    Bool.not_false, Bool.false_eq_true]
  rw [saveScheduledEmail_valid env db _ _ _ t hne (validEmails_valid req)]
  cases env.insertOk <;> rfl

/-- A readable submission with a valid address and no timestamp, or the zero instant as
timestamp, goes to the relay at once. -/
theorem handler_immediate (env : Env) (db : Store) (req : Request)
    (hscan : scanFailed req = false) (hne : validEmails req ≠ [])
    (htime : req.scheduled_time = "" ∨ env.parseTime req.scheduled_time = some zeroTime) :
    sendEmailHandler env db req =
      if env.sendOk then
        ⟨Response.message 200 "Emails sent successfully" (validEmails req) (invalidEmails req),
          [Call.sendEmail (validEmails req) req.subject req.body], db⟩
      else
        ⟨Response.error 500 "Failed to send email",
          [Call.sendEmail (validEmails req) req.subject req.body], db⟩ := by
  have hlen : (validEmails req).length ≠ 0 := by
    intro h
    exact hne (List.length_eq_zero.mp h)
  have hparsed : (if req.scheduled_time ≠ "" then env.parseTime req.scheduled_time
      else some zeroTime) = some zeroTime := by
    by_cases h : req.scheduled_time = ""
    · simp [h]
    · rcases htime with h2 | h2
      · exact absurd h2 h
      · simp [h, h2]
  have hz : IsZero zeroTime = true := rfl
  unfold sendEmailHandler
  simp only [hparsed, hscan, hlen, if_false, hz, Bool.not_true, Bool.false_eq_true]
  cases env.sendOk <;> rfl

/-- A submission without a valid address causes no call and leaves the table as it was. -/
theorem handler_no_valid (env : Env) (db : Store) (req : Request)
    (hempty : validEmails req = []) :
    (sendEmailHandler env db req).calls = [] ∧ (sendEmailHandler env db req).db = db := by
  unfold sendEmailHandler
  cases (if req.scheduled_time ≠ "" then env.parseTime req.scheduled_time
      else some zeroTime) with
  | none => exact ⟨rfl, rfl⟩
  | some t =>
    cases scanFailed req with
    | true => exact ⟨rfl, rfl⟩
    | false => simp [hempty]

/-- The answer to a readable submission without a valid address whose timestamp is absent or
well formed. -/
theorem handler_no_valid_response (env : Env) (db : Store) (req : Request)
    (hempty : validEmails req = [])
    (htime : req.scheduled_time = "" ∨ ∃ t, env.parseTime req.scheduled_time = some t)
    (hscan : scanFailed req = false) :
    (sendEmailHandler env db req).response =
      Response.message 200 "No valid emails to send to, but request was received." []
        (invalidEmails req) := by
  have hparsed : ∃ t, (if req.scheduled_time ≠ "" then env.parseTime req.scheduled_time
      else some zeroTime) = some t := by
    by_cases h : req.scheduled_time = ""
    · exact ⟨zeroTime, by simp [h]⟩
    · rcases htime with h2 | ⟨t, h2⟩
      · exact absurd h2 h
      · exact ⟨t, by simp [h, h2]⟩
  obtain ⟨t, ht⟩ := hparsed
  unfold sendEmailHandler
  simp [ht, hscan, hempty]

/-- A submission whose timestamp is present and does not parse is refused at once. -/
theorem handler_bad_time (env : Env) (db : Store) (req : Request)
    (hpresent : req.scheduled_time ≠ "")
    (hparse : env.parseTime req.scheduled_time = Option.none) :
    sendEmailHandler env db req =
      ⟨Response.error 400 "Invalid scheduled_time format. Use RFC3339 format.", [], db⟩ := by
  unfold sendEmailHandler
  simp [hpresent, hparse]

/-! ## The dispatch loop -/

theorem scan_id (r : Row) (sc : Scanned) (h : scan r = some sc) : sc.id = r.id := by
  unfold scan at h
  cases hs : r.subject with
  | none => simp [hs] at h
  | some s =>
    cases hb : r.body with
    | none => simp [hs, hb] at h
    | some b =>
      simp only [hs, hb, Option.some.injEq] at h
      rw [← h]

/-- The calls to the relay are the rows of the result that can be scanned, in order. -/
theorem processRows_trace (rows : List Row) :
    ∀ (sendOk updateOk : Nat → Bool) (db : Store),
      (processRows rows sendOk updateOk db).2 = rows.filterMap scan := by
  induction rows with
  | nil => intro _ _ _; rfl
  | cons r rest ih =>
    intro sendOk updateOk db
    cases hs : scan r with
    | none => simp only [processRows, hs, List.filterMap_cons]; exact ih _ _ _
    | some sc => simp only [processRows, hs, List.filterMap_cons]; rw [ih]

theorem execUpdate_ids (ok : Bool) (db : Store) (status : String) (id : Int) :
    (execUpdate ok db status id).map (fun r => r.id) = db.map (fun r => r.id) := by
  unfold execUpdate
  cases ok with
  | false => rfl
  | true =>
    simp only [if_true, List.map_map]
    apply List.map_congr_left
    intro r _
    by_cases h : r.id = id <;> simp [h]

theorem processRows_ids (rows : List Row) :
    ∀ (sendOk updateOk : Nat → Bool) (db : Store),
      (processRows rows sendOk updateOk db).1.map (fun r => r.id) = db.map (fun r => r.id) := by
  induction rows with
  | nil => intro _ _ _; rfl
  | cons r rest ih =>
    intro sendOk updateOk db
    cases hs : scan r with
    | none => simp only [processRows, hs]; exact ih _ _ _
    | some sc =>
      simp only [processRows, hs]
      rw [ih]
      cases sendOk 0 <;> simp [execUpdate_ids]

theorem dispatchCycle_ids (t : Tick) (db : Store) :
    (dispatchCycle t db).1.map (fun r => r.id) = db.map (fun r => r.id) := by
  unfold dispatchCycle
  cases t.queryOk with
  | false => rfl
  | true => exact processRows_ids _ _ _ _

theorem execUpdate_mem_of_ne (ok : Bool) (db : Store) (status : String) (id : Int) (x : Row)
    (hx : x ∈ db) (hne : x.id ≠ id) : x ∈ execUpdate ok db status id := by
  unfold execUpdate
  cases ok with
  | false => exact hx
  | true =>
    simp only [if_true, List.mem_map]
    exact ⟨x, hx, by simp [hne]⟩

theorem execUpdate_mem_self (db : Store) (status : String) (x : Row) (hx : x ∈ db) :
    { x with status := status } ∈ execUpdate true db status x.id := by
  unfold execUpdate
  simp only [if_true, List.mem_map]
  exact ⟨x, hx, by simp⟩

/-- A row whose identifier is not in the result of the query is left as it is. -/
theorem processRows_mem_of_not_mem (rows : List Row) :
    ∀ (sendOk updateOk : Nat → Bool) (db : Store) (x : Row),
      x ∈ db → (∀ r ∈ rows, r.id ≠ x.id) → x ∈ (processRows rows sendOk updateOk db).1 := by
  induction rows with
  | nil => intro _ _ _ _ hx _; exact hx
  | cons r rest ih =>
    intro sendOk updateOk db x hx hne
    have hr : r.id ≠ x.id := hne r (List.mem_cons_self _ _)
    have hrest : ∀ y ∈ rest, y.id ≠ x.id := fun y hy => hne y (List.mem_cons_of_mem _ hy)
    cases hs : scan r with
    | none => simp only [processRows, hs]; exact ih _ _ _ _ hx hrest
    | some sc =>
      simp only [processRows, hs]
      apply ih _ _ _ _ _ hrest
      have hid : x.id ≠ sc.id := by
        rw [scan_id r sc hs]
        exact fun e => hr e.symm
      cases sendOk 0
      · exact execUpdate_mem_of_ne _ _ _ _ _ hx hid
      · exact execUpdate_mem_of_ne _ _ _ _ _ hx hid

/-- The row at position `k` of the result, when it scans and its update is executed, ends
with the status that the outcome of its own call to the relay dictates. -/
theorem processRows_status (rows : List Row) :
    ∀ (sendOk updateOk : Nat → Bool) (db : Store) (k : Nat) (r : Row) (sc : Scanned),
      (rows.map (fun r => r.id)).Nodup → rows[k]? = some r → r ∈ db → scan r = some sc →
      updateOk k = true →
      { r with status := if sendOk k then "sent" else "failed" } ∈
        (processRows rows sendOk updateOk db).1 := by
  induction rows with
  | nil => intro _ _ _ k r _ _ hk; simp at hk
  | cons r0 rest ih =>
    intro sendOk updateOk db k r sc hnd hk hr hs hu
    rw [List.map_cons, List.nodup_cons] at hnd
    cases k with
    | zero =>
      simp only [List.getElem?_cons_zero, Option.some.injEq] at hk
      subst hk
      simp only [processRows, hs]
      apply processRows_mem_of_not_mem
      · rw [hu, scan_id r0 sc hs]
        cases sendOk 0
        · exact execUpdate_mem_self db "failed" r0 hr
        · exact execUpdate_mem_self db "sent" r0 hr
      · intro y hy e
        exact hnd.1 (by rw [← e]; exact List.mem_map_of_mem _ hy)
    | succ k =>
      simp only [List.getElem?_cons_succ] at hk
      have hmem : r ∈ rest := List.getElem?_mem hk
      have hne : r.id ≠ r0.id := by
        intro e
        exact hnd.1 (by rw [← e]; exact List.mem_map_of_mem _ hmem)
      cases hs0 : scan r0 with
      | none =>
        simp only [processRows, hs0]
        exact ih (fun j => sendOk (j + 1)) (fun j => updateOk (j + 1)) db k r sc hnd.2 hk hr hs hu
      | some sc0 =>
        simp only [processRows, hs0]
        apply ih (fun j => sendOk (j + 1)) (fun j => updateOk (j + 1)) _ k r sc hnd.2 hk _ hs hu
        have hid : r.id ≠ sc0.id := by
          rw [scan_id r0 sc0 hs0]
          exact hne
        cases sendOk 0
        · exact execUpdate_mem_of_ne _ _ _ _ _ hr hid
        · exact execUpdate_mem_of_ne _ _ _ _ _ hr hid

/-- Among the calls for rows with distinct identifiers, exactly one carries the identifier
of a given scanned row. -/
theorem filterMap_scan_filter (rows : List Row) :
    ∀ (r : Row) (sc : Scanned), (rows.map (fun r => r.id)).Nodup → r ∈ rows →
      scan r = some sc →
      (rows.filterMap scan).filter (fun c => decide (c.id = r.id)) = [sc] := by
  induction rows with
  | nil => intro r _ _ hr; simp at hr
  | cons r0 rest ih =>
    intro r sc hnd hr hs
    rw [List.map_cons, List.nodup_cons] at hnd
    have hnone : ∀ x : Row, (∀ y ∈ rest, y.id ≠ x.id) →
        (rest.filterMap scan).filter (fun c => decide (c.id = x.id)) = [] := by
      intro x hx
      rw [List.filter_eq_nil_iff]
      intro c hc
      obtain ⟨y, hy, hyc⟩ := List.mem_filterMap.mp hc
      simp only [decide_eq_true_eq]
      rw [scan_id y c hyc]
      exact hx y hy
    rcases List.mem_cons.mp hr with rfl | hr
    · have hrest : ∀ y ∈ rest, y.id ≠ r.id := by
        intro y hy e
        exact hnd.1 (by rw [← e]; exact List.mem_map_of_mem _ hy)
      simp only [List.filterMap_cons, hs]
      rw [List.filter_cons_of_pos (by simp [scan_id r sc hs]), hnone r hrest]
    · have hne : r0.id ≠ r.id := by
        intro e
        exact hnd.1 (by rw [e]; exact List.mem_map_of_mem _ hr)
      cases hs0 : scan r0 with
      | none => simp only [List.filterMap_cons, hs0]; exact ih r sc hnd.2 hr hs
      | some sc0 =>
        simp only [List.filterMap_cons, hs0]
        rw [List.filter_cons_of_neg (by simp [scan_id r0 sc0 hs0, hne])]
        exact ih r sc hnd.2 hr hs

theorem mem_fetchDue (db : Store) (now : Instant) (r : Row) :
    r ∈ fetchDue db now ↔ r ∈ db ∧ r.schedule_at ≤ now ∧ r.status = "pending" := by
  simp [fetchDue]

theorem fetchDue_ids_nodup (db : Store) (now : Instant)
    (h : (db.map (fun r => r.id)).Nodup) : ((fetchDue db now).map (fun r => r.id)).Nodup := by
  apply List.Nodup.sublist _ h
  exact List.Sublist.map _ (List.filter_sublist _)

theorem eq_of_id_eq (db : Store) (h : (db.map (fun r => r.id)).Nodup) (x y : Row)
    (hx : x ∈ db) (hy : y ∈ db) (e : x.id = y.id) : x = y :=
  List.inj_on_of_nodup_map h hx hy e

/-- One cycle leaves every row that is not pending where it is and makes no call for it. -/
theorem dispatchCycle_terminal (t : Tick) (db : Store) (r : Row)
    (hids : (db.map (fun r => r.id)).Nodup) (hr : r ∈ db) (hst : r.status ≠ "pending") :
    r ∈ (dispatchCycle t db).1 ∧ ∀ c ∈ (dispatchCycle t db).2, c.id ≠ r.id := by
  have hdue : ∀ y ∈ fetchDue db t.now, y.id ≠ r.id := by
    intro y hy e
    have hy2 := (mem_fetchDue db t.now y).mp hy
    have : y = r := eq_of_id_eq db hids y r hy2.1 hr e
    rw [this] at hy2
    exact hst hy2.2.2
  unfold dispatchCycle
  cases t.queryOk with
  | false => exact ⟨hr, fun c hc => by simp at hc⟩
  | true =>
    refine ⟨processRows_mem_of_not_mem _ _ _ _ _ hr hdue, ?_⟩
    intro c hc
    simp only [Bool.not_true, Bool.false_eq_true, if_false] at hc
    rw [processRows_trace] at hc
    obtain ⟨y, hy, hyc⟩ := List.mem_filterMap.mp hc
    rw [scan_id y c hyc]
    exact hdue y hy

/-- Any number of cycles leave every row that is not pending where it is and make no call
for it. -/
theorem runEmailScheduler_terminal (ticks : List Tick) :
    ∀ (db : Store) (r : Row), (db.map (fun r => r.id)).Nodup → r ∈ db →
      r.status ≠ "pending" →
      r ∈ (runEmailScheduler ticks db).1 ∧ ∀ c ∈ (runEmailScheduler ticks db).2, c.id ≠ r.id := by
  induction ticks with
  | nil => intro db r _ hr _; exact ⟨hr, fun c hc => by simp [runEmailScheduler] at hc⟩
  | cons t ts ih =>
    intro db r hids hr hst
    have h1 := dispatchCycle_terminal t db r hids hr hst
    have hids2 : ((dispatchCycle t db).1.map (fun r => r.id)).Nodup := by
      rw [dispatchCycle_ids]
      exact hids
    have h2 := ih (dispatchCycle t db).1 r hids2 h1.1 hst
    simp only [runEmailScheduler]
    refine ⟨h2.1, ?_⟩
    intro c hc
    rcases List.mem_append.mp hc with hc | hc
    · exact h1.2 c hc
    · exact h2.2 c hc

theorem filter_id_eq_singleton (l : List Row) :
    ∀ r : Row, (l.map (fun r => r.id)).Nodup → r ∈ l →
      l.filter (fun x => decide (x.id = r.id)) = [r] := by
  induction l with
  | nil => intro r _ hr; simp at hr
  | cons r0 rest ih =>
    intro r hnd hr
    rw [List.map_cons, List.nodup_cons] at hnd
    rcases List.mem_cons.mp hr with rfl | hr
    · rw [List.filter_cons_of_pos (by simp)]
      congr 1
      rw [List.filter_eq_nil_iff]
      intro y hy
      simp only [decide_eq_true_eq]
      intro e
      exact hnd.1 (by rw [← e]; exact List.mem_map_of_mem _ hy)
    · have hne : r0.id ≠ r.id := by
        intro e
        exact hnd.1 (by rw [e]; exact List.mem_map_of_mem _ hr)
      rw [List.filter_cons_of_neg (by simp [hne])]
      exact ih r hnd.2 hr

theorem filter_id_eq_nil (calls : List Scanned) (id : Int) (h : ∀ c ∈ calls, c.id ≠ id) :
    calls.filter (fun c => decide (c.id = id)) = [] := by
  rw [List.filter_eq_nil_iff]
  intro c hc
  simp only [decide_eq_true_eq]
  exact h c hc

theorem count_classify (toks : List String) (e : String) (he : e ≠ "") :
    (classify toks).1.count e + (classify toks).2.count e = (toks.map TrimSpace).count e := by
  rw [classify_eq_filter]
  show List.count e ((toks.map TrimSpace).filter (fun e => decide (e ≠ "") && isValidEmail e)) +
      List.count e ((toks.map TrimSpace).filter (fun e => decide (e ≠ "") && !isValidEmail e)) =
    (toks.map TrimSpace).count e
  by_cases hv : isValidEmail e = true
  · have h1 : List.count e ((toks.map TrimSpace).filter
        (fun e => decide (e ≠ "") && isValidEmail e)) = (toks.map TrimSpace).count e :=
      List.count_filter (by simp [he, hv])
    have h2 : List.count e ((toks.map TrimSpace).filter
        (fun e => decide (e ≠ "") && !isValidEmail e)) = 0 := by
      apply List.count_eq_zero_of_not_mem
      intro hm
      have := (List.mem_filter.mp hm).2
      simp [hv] at this
    rw [h1, h2]
    rfl
  · have h1 : List.count e ((toks.map TrimSpace).filter
        (fun e => decide (e ≠ "") && isValidEmail e)) = 0 := by
      apply List.count_eq_zero_of_not_mem
      intro hm
      have := (List.mem_filter.mp hm).2
      simp [hv] at this
    have h2 : List.count e ((toks.map TrimSpace).filter
        (fun e => decide (e ≠ "") && !isValidEmail e)) = (toks.map TrimSpace).count e :=
      List.count_filter (by simp [he, hv])
    rw [h1, h2]
    simp

theorem runEmailScheduler_ids (ticks : List Tick) :
    ∀ db : Store,
      (runEmailScheduler ticks db).1.map (fun r => r.id) = db.map (fun r => r.id) := by
  induction ticks with
  | nil => intro db; rfl
  | cons t ts ih =>
    intro db
    simp only [runEmailScheduler]
    rw [ih, dispatchCycle_ids]

/-! ## The claims -/

/-- C1, as stated, fails.  A submission with one valid address whose `scheduled_time` is the
start of the year 2000, in the past at a clock reading of 2026, is not handed to the relay:
the handler calls `saveScheduledEmail` and a pending row is written. -/
theorem C1_past_deliver_at_is_stored_not_sent :
    envOk.parseTime reqPast.scheduled_time = some 63082281600000000000 ∧
    (63082281600000000000 : Instant) < clock2026 ∧
    scanFailed reqPast = false ∧
    validEmails reqPast = ["a@b.com"] ∧
    (sendEmailHandler envOk [] reqPast).calls =
      [Call.saveScheduledEmail ["a@b.com"] "Hello" "<p>Hi</p>" 63082281600000000000] ∧
    (sendEmailHandler envOk [] reqPast).db =
      [{ id := 1, recipients := ["a@b.com"], subject := some "Hello", body := some "<p>Hi</p>",
         schedule_at := 63082281600000000000, status := "pending" }] ∧
    ¬ ((sendEmailHandler envOk [] reqPast).calls =
          [Call.sendEmail (validEmails reqPast) reqPast.subject reqPast.body] ∧
        (sendEmailHandler envOk [] reqPast).db = []) := by
  decide

/-- C1, amended.  For every submission that was read without a scanner error, has a non-empty
list of valid addresses, and whose `scheduled_time` is absent or parses to the zero instant
`0001-01-01T00:00:00Z`: the handler calls `sendEmail` exactly once, with the valid list, the
subject and the body, makes no call to `saveScheduledEmail`, leaves the table unchanged, and
answers with the outcome of the relay. -/
theorem C1_absent_or_zero_deliver_at_sends_once (env : Env) (db : Store) (req : Request)
    (hscan : scanFailed req = false) (hne : validEmails req ≠ [])
    (htime : req.scheduled_time = "" ∨ env.parseTime req.scheduled_time = some zeroTime) :
    (sendEmailHandler env db req).calls =
        [Call.sendEmail (validEmails req) req.subject req.body] ∧
      (sendEmailHandler env db req).db = db ∧
      (sendEmailHandler env db req).response =
        (if env.sendOk then
          Response.message 200 "Emails sent successfully" (validEmails req) (invalidEmails req)
        else Response.error 500 "Failed to send email") := by
  rw [handler_immediate env db req hscan hne htime]
  cases env.sendOk <;> exact ⟨rfl, rfl, rfl⟩

/-- C1, amended, at a submission without `scheduled_time`. -/
theorem C1_absent_or_zero_deliver_at_sends_once_witness :
    scanFailed reqNow = false ∧ validEmails reqNow ≠ [] ∧
    (reqNow.scheduled_time = "" ∨ envOk.parseTime reqNow.scheduled_time = some zeroTime) ∧
    ((sendEmailHandler envOk [] reqNow).calls =
        [Call.sendEmail (validEmails reqNow) reqNow.subject reqNow.body] ∧
      (sendEmailHandler envOk [] reqNow).db = [] ∧
      (sendEmailHandler envOk [] reqNow).response =
        (if envOk.sendOk then
          Response.message 200 "Emails sent successfully" (validEmails reqNow)
            (invalidEmails reqNow)
        else Response.error 500 "Failed to send email")) :=
  ⟨by decide, by decide, Or.inl rfl,
    C1_absent_or_zero_deliver_at_sends_once envOk [] reqNow (by decide) (by decide)
      (Or.inl rfl)⟩

/-- C2.  For every submission that was read without a scanner error, has a non-empty list of
valid addresses, and whose `scheduled_time` is present and parses to an instant after the
clock reading (a clock that is not before the zero instant): the handler makes exactly one
call, to `saveScheduledEmail`, with the valid list, the subject, the body and that instant,
and none to `sendEmail`.  When the insertion is executed, the table gains exactly one row,
with status `pending`, that instant, the subject, the body and the valid list as recipients,
and the answer is the scheduled message with both lists; when it is not, the table is
unchanged and the answer is the scheduling error. -/
theorem C2_future_deliver_at_is_stored (env : Env) (db : Store) (req : Request)
    (t now : Instant) (hscan : scanFailed req = false) (hne : validEmails req ≠ [])
    (hpresent : req.scheduled_time ≠ "") (hparse : env.parseTime req.scheduled_time = some t)
    (hclock : zeroTime ≤ now) (hfuture : now < t) :
    (sendEmailHandler env db req).calls =
        [Call.saveScheduledEmail (validEmails req) req.subject req.body t] ∧
      (sendEmailHandler env db req).db =
        (if env.insertOk then
          db ++ [{ id := env.newId, recipients := validEmails req, subject := some req.subject,
                   body := some req.body, schedule_at := t, status := "pending" }]
        else db) ∧
      (sendEmailHandler env db req).response =
        (if env.insertOk then
          Response.message 200 "Email scheduled successfully" (validEmails req)
            (invalidEmails req)
        else Response.error 500 "Failed to schedule email") := by
  have hnz : t ≠ zeroTime := by
    intro e
    rw [e] at hfuture
    exact absurd hfuture (not_lt.mpr hclock)
  rw [handler_scheduled env db req t hscan hne hpresent hparse hnz]
  cases env.insertOk <;> exact ⟨rfl, rfl, rfl⟩

/-- C2 at a submission for the year 2100 with a repeated address, at a clock reading of
2026. -/
theorem C2_future_deliver_at_is_stored_witness :
    scanFailed reqFuture = false ∧ validEmails reqFuture ≠ [] ∧
    reqFuture.scheduled_time ≠ "" ∧
    envOk.parseTime reqFuture.scheduled_time = some 66238041600000000000 ∧
    zeroTime ≤ clock2026 ∧ clock2026 < 66238041600000000000 ∧
    ((sendEmailHandler envOk [] reqFuture).calls =
        [Call.saveScheduledEmail (validEmails reqFuture) reqFuture.subject reqFuture.body
          66238041600000000000] ∧
      (sendEmailHandler envOk [] reqFuture).db =
        (if envOk.insertOk then
          [] ++ [{ id := envOk.newId, recipients := validEmails reqFuture,
                   subject := some reqFuture.subject, body := some reqFuture.body,
                   schedule_at := 66238041600000000000, status := "pending" }]
        else []) ∧
      (sendEmailHandler envOk [] reqFuture).response =
        (if envOk.insertOk then
          Response.message 200 "Email scheduled successfully" (validEmails reqFuture)
            (invalidEmails reqFuture)
        else Response.error 500 "Failed to schedule email")) :=
  ⟨by decide, by decide, by decide, by decide, by decide, by decide,
    C2_future_deliver_at_is_stored envOk [] reqFuture 66238041600000000000 clock2026
      (by decide) (by decide) (by decide) (by decide) (by decide) (by decide)⟩

/-- C3, as stated, fails.  A pending row that is due and whose subject is NULL is returned by
the query, cannot be scanned, and is skipped: the cycle makes no call to the relay although
one record is due. -/
theorem C3_unscannable_due_row_is_skipped :
    tickLater.queryOk = true ∧
    fetchDue [rowNullSubject] tickLater.now = [rowNullSubject] ∧
    (dispatchCycle tickLater [rowNullSubject]).2 = [] ∧
    ¬ ((dispatchCycle tickLater [rowNullSubject]).2.map (fun c => c.id) =
        (fetchDue [rowNullSubject] tickLater.now).map (fun r => r.id)) := by
  decide

/-- C3, amended.  For every table and every clock reading, whenever the query of a dispatch
cycle succeeds, the calls the cycle makes to `sendEmail` are exactly those for the rows with
status `pending` and `schedule_at <= now` that can be scanned, each once and in the order
returned, with the identifier, recipients, subject and body of the row, whatever the outcomes
of the relay and of the status updates are. -/
theorem C3_calls_are_the_scannable_due_rows (t : Tick) (db : Store)
    (hq : t.queryOk = true) :
    (dispatchCycle t db).2 = (fetchDue db t.now).filterMap scan := by
  unfold dispatchCycle
  simp only [hq, Bool.not_true, Bool.false_eq_true, if_false]
  exact processRows_trace _ _ _ _

/-- C3, amended, at a table with three due rows and a relay that refuses the second. -/
theorem C3_calls_are_the_scannable_due_rows_witness :
    tickSecondFails.queryOk = true ∧
    (dispatchCycle tickSecondFails dbExample).2 =
      (fetchDue dbExample tickSecondFails.now).filterMap scan :=
  ⟨by decide, C3_calls_are_the_scannable_due_rows tickSecondFails dbExample (by decide)⟩

/-- C4, as stated, fails.  A due record is still pending after the cycle when the query
fails (no call is made), when its status update is not executed (one call is made and
succeeds), and when its row cannot be scanned (no call is made). -/
theorem C4_due_record_can_stay_pending :
    fetchDue [rowAt 1 5] 100 = [rowAt 1 5] ∧
    (rowAt 1 5).status = "pending" ∧
    dispatchCycle tickQueryFails [rowAt 1 5] = ([rowAt 1 5], []) ∧
    dispatchCycle tickUpdateFails [rowAt 1 5] =
      ([rowAt 1 5], [⟨1, ["a@b.com"], "Hello", "<p>Hi</p>"⟩]) ∧
    fetchDue [rowNullSubject] 200 = [rowNullSubject] ∧
    rowNullSubject.status = "pending" ∧
    dispatchCycle tickLater [rowNullSubject] = ([rowNullSubject], []) := by
  decide

/-- C4, amended.  In a table with distinct identifiers, for every record that is due at the
start of a dispatch cycle whose query succeeds, whose row can be scanned and whose status
update is executed: the cycle makes exactly one call to `sendEmail` for it, and afterwards
the row is the same with status `sent` if that call succeeded and `failed` if it failed. -/
theorem C4_due_record_becomes_sent_or_failed (t : Tick) (db : Store) (k : Nat) (r : Row)
    (sc : Scanned) (hids : (db.map (fun r => r.id)).Nodup) (hq : t.queryOk = true)
    (hk : (fetchDue db t.now)[k]? = some r) (hscan : scan r = some sc)
    (hupd : t.updateOk k = true) :
    (dispatchCycle t db).1.filter (fun x => decide (x.id = r.id)) =
        [{ r with status := if t.sendOk k then "sent" else "failed" }] ∧
      (dispatchCycle t db).2.filter (fun c => decide (c.id = r.id)) = [sc] := by
  have hdue : r ∈ fetchDue db t.now := List.getElem?_mem hk
  have hr : r ∈ db := ((mem_fetchDue db t.now r).mp hdue).1
  have hnd := fetchDue_ids_nodup db t.now hids
  have hids2 : ((dispatchCycle t db).1.map (fun r => r.id)).Nodup := by
    rw [dispatchCycle_ids]
    exact hids
  have hmem : { r with status := if t.sendOk k then "sent" else "failed" } ∈
      (dispatchCycle t db).1 := by
    unfold dispatchCycle
    simp only [hq, Bool.not_true, Bool.false_eq_true, if_false]
    exact processRows_status _ _ _ _ k r sc hnd hk hr hscan hupd
  constructor
  · exact filter_id_eq_singleton _ _ hids2 hmem
  · unfold dispatchCycle
    simp only [hq, Bool.not_true, Bool.false_eq_true, if_false]
    rw [processRows_trace]
    exact filterMap_scan_filter _ r sc hnd hdue hscan

/-- C4, amended, at the second of three due rows, for which the relay fails. -/
theorem C4_due_record_becomes_sent_or_failed_witness :
    (dbExample.map (fun r => r.id)).Nodup ∧ tickSecondFails.queryOk = true ∧
    (fetchDue dbExample tickSecondFails.now)[1]? = some (rowAt 2 50) ∧
    scan (rowAt 2 50) = some ⟨2, ["a@b.com"], "Hello", "<p>Hi</p>"⟩ ∧
    tickSecondFails.updateOk 1 = true ∧
    ((dispatchCycle tickSecondFails dbExample).1.filter
          (fun x => decide (x.id = (rowAt 2 50).id)) =
        [{ rowAt 2 50 with status := if tickSecondFails.sendOk 1 then "sent" else "failed" }] ∧
      (dispatchCycle tickSecondFails dbExample).2.filter
          (fun c => decide (c.id = (rowAt 2 50).id)) =
        [⟨2, ["a@b.com"], "Hello", "<p>Hi</p>"⟩]) :=
  ⟨by decide, by decide, by decide, by decide, by decide,
    C4_due_record_becomes_sent_or_failed tickSecondFails dbExample 1 (rowAt 2 50)
      ⟨2, ["a@b.com"], "Hello", "<p>Hi</p>"⟩ (by decide) (by decide) (by decide) (by decide)
      (by decide)⟩

/-- C5.  In a table with distinct identifiers, for every record whose status is `sent` or
`failed`: a dispatch cycle makes no call to `sendEmail` for it and leaves its row as it is,
and so does every sequence of later cycles; in particular a record that a cycle has marked
`failed` is not attempted again. -/
theorem C5_sent_and_failed_records_are_left_alone (db : Store) (t : Tick)
    (ticks : List Tick) (r : Row) (hids : (db.map (fun r => r.id)).Nodup) (hr : r ∈ db)
    (hst : r.status = "sent" ∨ r.status = "failed") :
    (dispatchCycle t db).1.filter (fun x => decide (x.id = r.id)) = [r] ∧
      (dispatchCycle t db).2.filter (fun c => decide (c.id = r.id)) = [] ∧
      (runEmailScheduler ticks db).1.filter (fun x => decide (x.id = r.id)) = [r] ∧
      (runEmailScheduler ticks db).2.filter (fun c => decide (c.id = r.id)) = [] := by
  have hnp : r.status ≠ "pending" := by
    rcases hst with h | h <;> rw [h] <;> decide
  have h1 := dispatchCycle_terminal t db r hids hr hnp
  have h2 := runEmailScheduler_terminal ticks db r hids hr hnp
  have hids1 : ((dispatchCycle t db).1.map (fun r => r.id)).Nodup := by
    rw [dispatchCycle_ids]
    exact hids
  have hids2 : ((runEmailScheduler ticks db).1.map (fun r => r.id)).Nodup := by
    rw [runEmailScheduler_ids]
    exact hids
  exact ⟨filter_id_eq_singleton _ _ hids1 h1.1, filter_id_eq_nil _ _ h1.2,
    filter_id_eq_singleton _ _ hids2 h2.1, filter_id_eq_nil _ _ h2.2⟩

/-- C5 at the table left by a cycle in which the relay refused the second due record: that
record is `failed`, and two later cycles neither call the relay for it nor change it. -/
theorem C5_sent_and_failed_records_are_left_alone_witness :
    (((dispatchCycle tickSecondFails dbExample).1).map (fun r => r.id)).Nodup ∧
    { rowAt 2 50 with status := "failed" } ∈ (dispatchCycle tickSecondFails dbExample).1 ∧
    (({ rowAt 2 50 with status := "failed" } : Row).status = "sent" ∨
      ({ rowAt 2 50 with status := "failed" } : Row).status = "failed") ∧
    ((dispatchCycle tickLater (dispatchCycle tickSecondFails dbExample).1).1.filter
          (fun x => decide (x.id = ({ rowAt 2 50 with status := "failed" } : Row).id)) =
        [{ rowAt 2 50 with status := "failed" }] ∧
      (dispatchCycle tickLater (dispatchCycle tickSecondFails dbExample).1).2.filter
          (fun c => decide (c.id = ({ rowAt 2 50 with status := "failed" } : Row).id)) = [] ∧
      (runEmailScheduler [tickLater, tickLater]
            (dispatchCycle tickSecondFails dbExample).1).1.filter
          (fun x => decide (x.id = ({ rowAt 2 50 with status := "failed" } : Row).id)) =
        [{ rowAt 2 50 with status := "failed" }] ∧
      (runEmailScheduler [tickLater, tickLater]
            (dispatchCycle tickSecondFails dbExample).1).2.filter
          (fun c => decide (c.id = ({ rowAt 2 50 with status := "failed" } : Row).id)) = []) :=
  ⟨by decide, by decide, Or.inr rfl,
    C5_sent_and_failed_records_are_left_alone (dispatchCycle tickSecondFails dbExample).1
      tickLater [tickLater, tickLater] { rowAt 2 50 with status := "failed" } (by decide)
      (by decide) (Or.inr rfl)⟩

/-- C6, as stated, fails.  The string `a@b..com` is accepted by `isValidEmail` although its
domain has an empty label, so it does not have the shape the specification describes. -/
theorem C6_empty_domain_label_is_accepted :
    isValidEmail "a@b..com" = true ∧ specValidEmail "a@b..com" = false ∧
    ¬ (isValidEmail "a@b..com" = true ↔ specValidEmail "a@b..com" = true) := by
  decide

/-- C6, amended.  For every string, `isValidEmail` holds if and only if the string is a
local part of one or more runes from letters, digits, `.`, `_`, `%`, `+`, `-`, then `@`, then
a domain of one or more runes from letters, digits, `-` and `.` (so its labels may be empty),
then `.`, then a final label of two or more letters. -/
theorem C6_isValidEmail_shape (email : String) :
    isValidEmail email = true ↔
      ∃ loc dom tld : List Char,
        email.data = loc ++ '@' :: (dom ++ '.' :: tld) ∧
        loc ≠ [] ∧ (∀ c ∈ loc, isLocalChar c = true) ∧
        dom ≠ [] ∧ (∀ c ∈ dom, isDomainChar c = true) ∧
        2 ≤ tld.length ∧ ∀ c ∈ tld, isLetter c = true :=
  isValidEmail_iff_shape email

/-- C7.  Classification is total and is a partition: for every list of tokens the valid list
is the list of trimmed tokens that are non-empty and satisfy `isValidEmail`, the invalid list
is the list of trimmed tokens that are non-empty and do not, both in encounter order; every
non-empty trimmed token occurs in the two lists together as often as among the tokens, and
the empty string occurs in neither.  The lists of a request are those of its tokens, for an
upload and for the text field alike.  The tokens `a@b.com`, `bad-addr` give the valid list
`[a@b.com]` and the invalid list `[bad-addr]`, and without `scheduled_time` the relay is
called with the recipients `[a@b.com]`. -/
theorem C7_classification_is_a_partition :
    (∀ toks : List String,
      classify toks =
        ((toks.map TrimSpace).filter (fun e => decide (e ≠ "") && isValidEmail e),
         (toks.map TrimSpace).filter (fun e => decide (e ≠ "") && !isValidEmail e)) ∧
      (∀ e : String, e ≠ "" →
        (classify toks).1.count e + (classify toks).2.count e = (toks.map TrimSpace).count e) ∧
      "" ∉ (classify toks).1 ∧ "" ∉ (classify toks).2) ∧
    (∀ req : Request,
      validEmails req = (classify (tokens req)).1 ∧
      invalidEmails req = (classify (tokens req)).2) ∧
    classify ["a@b.com", "bad-addr"] = (["a@b.com"], ["bad-addr"]) ∧
    tokens reqNow = ["a@b.com", "bad-addr"] ∧
    (sendEmailHandler envOk [] reqNow).calls = [Call.sendEmail ["a@b.com"] "Hello" "<p>Hi</p>"] ∧
    (sendEmailHandler envOk [] reqNow).response =
      Response.message 200 "Emails sent successfully" ["a@b.com"] ["bad-addr"] ∧
    tokens reqUpload = ["a@b.com", "  bad-addr", ""] ∧
    (sendEmailHandler envOk [] reqUpload).calls =
      [Call.sendEmail ["a@b.com"] "Hello" "<p>Hi</p>"] ∧
    (sendEmailHandler envOk [] reqUpload).response =
      Response.message 200 "Emails sent successfully" ["a@b.com"] ["bad-addr"] := by
  refine ⟨?_, fun req => ⟨rfl, rfl⟩, by decide, by decide, by decide, by decide, by decide,
    by decide, by decide⟩
  intro toks
  refine ⟨classify_eq_filter toks, count_classify toks, ?_, ?_⟩
  · rw [classify_eq_filter]
    simp [List.mem_filter]
  · rw [classify_eq_filter]
    simp [List.mem_filter]

/-- C8, as stated, fails.  A submission whose only token is malformed and whose
`scheduled_time` does not parse is answered with the input-validation error, not with the
informational message. -/
theorem C8_no_valid_address_with_bad_time_is_an_error :
    validEmails reqBadTime = [] ∧ scanFailed reqBadTime = false ∧
    (sendEmailHandler envOk [] reqBadTime).response =
      Response.error 400 "Invalid scheduled_time format. Use RFC3339 format." ∧
    ¬ ((sendEmailHandler envOk [] reqBadTime).response =
      Response.message 200 "No valid emails to send to, but request was received."
        (validEmails reqBadTime) (invalidEmails reqBadTime)) := by
  decide

/-- C8, amended.  For every submission in which no token is a valid address, the handler
makes no call to `saveScheduledEmail` or `sendEmail` and leaves the table unchanged; when in
addition the recipient input was read without a scanner error and `scheduled_time` is absent
or parses, the answer is the informational message (status 200, an empty valid list and the
invalid list). -/
theorem C8_no_valid_address_is_informational (env : Env) (db : Store) (req : Request)
    (hempty : validEmails req = []) :
    (sendEmailHandler env db req).calls = [] ∧
      (sendEmailHandler env db req).db = db ∧
      ((scanFailed req = false ∧
          (req.scheduled_time = "" ∨ ∃ t, env.parseTime req.scheduled_time = some t)) →
        (sendEmailHandler env db req).response =
          Response.message 200 "No valid emails to send to, but request was received." []
            (invalidEmails req)) := by
  have h1 := handler_no_valid env db req hempty
  exact ⟨h1.1, h1.2, fun h => handler_no_valid_response env db req hempty h.2 h.1⟩

/-- C8, amended, at a submission without `scheduled_time` whose tokens are all malformed. -/
theorem C8_no_valid_address_is_informational_witness :
    validEmails reqNoValid = [] ∧
    ((sendEmailHandler envOk dbExample reqNoValid).calls = [] ∧
      (sendEmailHandler envOk dbExample reqNoValid).db = dbExample ∧
      ((scanFailed reqNoValid = false ∧
          (reqNoValid.scheduled_time = "" ∨
            ∃ t, envOk.parseTime reqNoValid.scheduled_time = some t)) →
        (sendEmailHandler envOk dbExample reqNoValid).response =
          Response.message 200 "No valid emails to send to, but request was received." []
            (invalidEmails reqNoValid))) :=
  ⟨by decide, C8_no_valid_address_is_informational envOk dbExample reqNoValid (by decide)⟩

/-- C9.  For every submission whose `scheduled_time` is non-empty and does not parse, the
handler answers with the input-validation error (status 400), makes no call to
`saveScheduledEmail` or `sendEmail`, and leaves the table unchanged, whatever the
recipients, the subject and the body are. -/
theorem C9_malformed_scheduled_time_is_rejected (env : Env) (db : Store) (req : Request)
    (hpresent : req.scheduled_time ≠ "")
    (hparse : env.parseTime req.scheduled_time = Option.none) :
    sendEmailHandler env db req =
      ⟨Response.error 400 "Invalid scheduled_time format. Use RFC3339 format.", [], db⟩ :=
  handler_bad_time env db req hpresent hparse

/-- C9 at a submission whose `scheduled_time` is the word `tomorrow`. -/
theorem C9_malformed_scheduled_time_is_rejected_witness :
    reqBadTime.scheduled_time ≠ "" ∧
    envOk.parseTime reqBadTime.scheduled_time = Option.none ∧
    sendEmailHandler envOk dbExample reqBadTime =
      ⟨Response.error 400 "Invalid scheduled_time format. Use RFC3339 format.", [],
        dbExample⟩ :=
  ⟨by decide, by decide,
    C9_malformed_scheduled_time_is_rejected envOk dbExample reqBadTime (by decide)
      (by decide)⟩

/-- C10.  For every non-empty list of strings that each satisfy `isValidEmail`, the
recipients text built by `saveScheduledEmail` (an opening brace, the elements joined by
commas, a closing brace) reads back as the same list, in the same order and with its
duplicates: removing the outer braces and cutting at every comma returns the elements; and
no element holds a comma, a brace, a double quote, a backslash or white space. -/
theorem C10_recipients_text_round_trip (recipients : List String) (hne : recipients ≠ [])
    (hvalid : ∀ e ∈ recipients, isValidEmail e = true) :
    decodeRecipients (recipientsStr recipients) = some recipients ∧
      recipients.all (fun e => e.data.all (fun c =>
        c != ',' && c != '\x7b' && c != '\x7d' && c != '\x22' && c != '\x5c' &&
          !isSpace c)) = true := by
  refine ⟨decodeRecipients_valid recipients hne hvalid, ?_⟩
  rw [List.all_eq_true]
  intro e he
  rw [List.all_eq_true]
  intro c hc
  have hv := isValidEmail_chars e (hvalid e he) c hc
  have h1 := validChar_ne c ',' hv (by decide) (by decide)
  have h2 := validChar_ne c '\x7b' hv (by decide) (by decide)
  have h3 := validChar_ne c '\x7d' hv (by decide) (by decide)
  have h4 := validChar_ne c '\x22' hv (by decide) (by decide)
  have h5 := validChar_ne c '\x5c' hv (by decide) (by decide)
  have h6 := validChar_not_space c hv
  simp [h1, h2, h3, h4, h5, h6]

/-- C10 at a list of three addresses, one of them repeated. -/
theorem C10_recipients_text_round_trip_witness :
    (["a@b.com", "x.y+z@mail.example.org", "a@b.com"] : List String) ≠ [] ∧
    (∀ e ∈ (["a@b.com", "x.y+z@mail.example.org", "a@b.com"] : List String),
      isValidEmail e = true) ∧
    (decodeRecipients (recipientsStr ["a@b.com", "x.y+z@mail.example.org", "a@b.com"]) =
        some ["a@b.com", "x.y+z@mail.example.org", "a@b.com"] ∧
      (["a@b.com", "x.y+z@mail.example.org", "a@b.com"] : List String).all
        (fun e => e.data.all (fun c =>
          c != ',' && c != '\x7b' && c != '\x7d' && c != '\x22' && c != '\x5c' &&
            !isSpace c)) = true) :=
  ⟨by decide, by decide,
    C10_recipients_text_round_trip ["a@b.com", "x.y+z@mail.example.org", "a@b.com"]
      (by decide) (by decide)⟩

end MassMail
